import Mathlib

/-!
Verification of the static-assets manifest pipeline.

This file is a shallow embedding of the manifest-generation logic of
`scripts/generate-assets.js` (filename parsing, variant grouping, manifest
assembly) and of the client-side query/resolution layer of `app/main.js`
(result ordering, best-variant resolution), together with proofs about them.

Conventions of the embedding:
* filenames, ids and formats are `String`s; pixel sizes are `Nat`
  (`Option Nat` where the JavaScript value may be `null`);
* the JavaScript object `assetGroups` (string keys, insertion order) is an
  insertion-ordered association list.  JavaScript objects iterate
  integer-like keys first; asset ids here are kebab-case tokens (enforced
  by the repository's validation script), for which object iteration order
  is plain insertion order;
* a JavaScript `Set` accumulates as an insert-if-absent list; the code
  materializes it with `.sort()`, embedded as `List.insertionSort`;
* `localeCompare` and the default string `sort()` are embedded as the
  codepoint order on `String` (the two agree on the ASCII data involved);
* fallible/async code is embedded with `Except`.
-/

namespace StaticAssets

/-- Lower-case a string character by character, as JavaScript
`toLowerCase` does on the ASCII filenames involved. -/
def lowerStr (s : String) : String := String.mk (s.data.map Char.toLower)

/-- Node `path.extname` restricted to bare filenames (no directory
separators), as applied to `fs.readdir` entries: the suffix starting at the
last dot, or `""` when there is no dot or the only dot is the leading one
(hidden files).  The path components `"."` and `".."` have no extension. -/
def extname (s : String) : String :=
  if s = "." ∨ s = ".." then ""
  else
    let rcs := s.data.reverse
    let tail := rcs.takeWhile (fun c => c ≠ '.')
    match rcs.dropWhile (fun c => c ≠ '.') with
    | [] => ""
    | _ :: [] => ""
    | _ :: _ :: _ => String.mk ('.' :: tail.reverse)

/-- Node `path.basename file ext`: strips `ext` when it is a proper suffix
of `file`.  The generator calls it with the lower-cased extension, so a
file with an upper-case extension is not stripped. -/
def basenameStrip (file ext : String) : String :=
  if ext ≠ "" ∧ ext.data.isSuffixOf file.data ∧ ext.data.length < file.data.length then
    String.mk (file.data.take (file.data.length - ext.data.length))
  else file

/-- Numeric value of a decimal digit string, as `parseInt(digits, 10)` on a
match of `\d+` (leading zeros allowed). -/
def natOfDigits (ds : List Char) : Nat :=
  ds.foldl (fun n c => 10 * n + (c.toNat - '0'.toNat)) 0

/-- The regex match `baseName.match(/^(.+?)-(\d+)$/)` of the generator.

Because `(\d+)` is anchored at the end, a successful match splits the name
as `prefix ++ "-" ++ digits` with `digits` a non-empty all-digit suffix and
`prefix` non-empty.  Any character of the maximal digit suffix is a digit,
not `'-'`, so the only candidate split is at the `'-'` immediately before
the maximal digit suffix; the lazy `(.+?)` therefore changes nothing.
Returns the asset id together with the parsed size. -/
def parseBase (baseName : String) : String × Option Nat :=
  let rcs := baseName.data.reverse
  let digits := rcs.takeWhile Char.isDigit
  match digits, rcs.dropWhile Char.isDigit with
  | _ :: _, '-' :: p₀ :: p => (String.mk (p₀ :: p).reverse, some (natOfDigits digits.reverse))
  | _, _ => (baseName, none)

/-- Extensions accepted by the manifest generator
(`['.svg', '.png', '.jpg', '.jpeg', '.webp', '.avif']`). -/
def recognizedExts : List String := [".svg", ".png", ".jpg", ".jpeg", ".webp", ".avif"]

/-- Result of parsing one directory entry. -/
structure ParsedFile where
  assetName : String
  size : Option Nat
  format : String
deriving Repr, DecidableEq

/-- Parsing step of the grouping loop in `generateManifest`: lower-cased
extension must be recognized (otherwise the file is skipped), the base name
is split into asset id and optional size, the format is the extension
without its dot. -/
def parseFile (file : String) : Option ParsedFile :=
  let ext := lowerStr (extname file)
  if ext ∈ recognizedExts then
    let baseName := basenameStrip file ext
    let (assetName, size) := parseBase baseName
    some ⟨assetName, size, String.mk (ext.data.drop 1)⟩
  else none

/-- An `AssetFile` record of the manifest (`lib/types/manifest.ts`). -/
structure AssetFile where
  file : String
  format : String
  size : Option Nat
  path : String
deriving Repr, DecidableEq

/-- One in-progress entry of the `assetGroups` object, before the sets are
materialized into sorted arrays. -/
structure AssetGroup where
  id : String
  name : String
  type : String
  basePath : String
  sizes : List Nat
  formats : List String
  files : List AssetFile
deriving Repr, DecidableEq

/-- JavaScript `s.split('-')` on the character list: every hyphen is a
separator, and `"".split('-')` is `[""]`. -/
def splitOnDash : List Char → List (List Char)
  | [] => [[]]
  | c :: rest =>
      if c = '-' then [] :: splitOnDash rest
      else
        match splitOnDash rest with
        | w :: ws => (c :: w) :: ws
        | [] => [[c]]

/-- JavaScript `words.join(' ')`. -/
def joinSpace : List (List Char) → List Char
  | [] => []
  | [w] => w
  | w :: ws => w ++ ' ' :: joinSpace ws

/-- One word of the title-casing
`w.charAt(0).toUpperCase() + w.slice(1)`. -/
def capitalizeWord (w : List Char) : List Char :=
  match w with
  | [] => []
  | c :: rest => Char.toUpper c :: rest

/-- Derived display form of a kebab-case id:
`s.split('-').map(w => w.charAt(0).toUpperCase() + w.slice(1)).join(' ')`. -/
def titleCase (s : String) : String :=
  String.mk (joinSpace ((splitOnDash s.data).map capitalizeWord))

/-- Lexicographic three-way comparison of character lists by code point:
the sign of JavaScript's code-unit string comparison (default `sort()`,
and `localeCompare` on the ASCII data involved). -/
def cmpc : List Char → List Char → Ordering
  | [], [] => Ordering.eq
  | [], _ :: _ => Ordering.lt
  | _ :: _, [] => Ordering.gt
  | c :: cs, d :: ds =>
      if c < d then Ordering.lt else if d < c then Ordering.gt else cmpc cs ds

/-- Three-way string comparison by code point. -/
def strCmp (a b : String) : Ordering := cmpc a.data b.data

/-- The non-strict string order of the default `sort()`. -/
def strLe (a b : String) : Prop := strCmp a b ≠ Ordering.gt

instance : DecidableRel strLe := fun a b => by
  unfold strLe; infer_instance

/-- Root-relative path of a generated file,
`v1/brands/BRAND/TYPE/FILE`. -/
def mkPath (brandId assetType file : String) : String :=
  "v1/brands/" ++ brandId ++ "/" ++ assetType ++ "/" ++ file

/-- Fresh `assetGroups` entry created when an asset id is first seen. -/
def skeleton (brandId assetType assetName : String) : AssetGroup :=
  { id := assetName
  , name := titleCase assetName
  , type := assetType
  , basePath := mkPath brandId assetType assetName
  , sizes := []
  , formats := []
  , files := [] }

/-- JavaScript `Set.add` on the accumulating list: append if absent. -/
def addUnique {α : Type} [DecidableEq α] (l : List α) (a : α) : List α :=
  if a ∈ l then l else l ++ [a]

/-- The guarded size accumulation `if (size) sizes.add(size)`: `null` and
`0` are falsy and are not added. -/
def addSize (sizes : List Nat) (size : Option Nat) : List Nat :=
  match size with
  | some s => if s ≠ 0 then addUnique sizes s else sizes
  | none => sizes

/-- Mutation of one group by one parsed file: record the format, maybe the
size, and push the file record. -/
def applyFile (p : ParsedFile) (brandId assetType file : String) (g : AssetGroup) : AssetGroup :=
  { g with
    formats := addUnique g.formats p.format
  , sizes := addSize g.sizes p.size
  , files := g.files ++ [⟨file, p.format, p.size, mkPath brandId assetType file⟩] }

/-- Update an insertion-ordered association list at a key, creating the
entry from the default when absent (appended at the end, as a fresh
JavaScript object property). -/
def updateA {α : Type} (k : String) (f : α → α) (d : α) :
    List (String × α) → List (String × α)
  | [] => [(k, f d)]
  | (k', v) :: rest =>
      if k' = k then (k', f v) :: rest else (k', v) :: updateA k f d rest

/-- Association-list lookup (JavaScript property read). -/
def lookupA {α : Type} (k : String) : List (String × α) → Option α
  | [] => none
  | (k', v) :: rest => if k' = k then some v else lookupA k rest

/-- One iteration of the grouping loop of `generateManifest`: skip
unrecognized extensions, otherwise create/update the group of the parsed
asset id. -/
def addFile (brandId assetType : String) (groups : List (String × AssetGroup))
    (file : String) : List (String × AssetGroup) :=
  match parseFile file with
  | none => groups
  | some p =>
      updateA p.assetName (applyFile p brandId assetType file)
        (skeleton brandId assetType p.assetName) groups

/-- The grouping loop over one `(brand, assetType)` directory listing. -/
def groupFiles (brandId assetType : String) (files : List String) :
    List (String × AssetGroup) :=
  files.foldl (addFile brandId assetType) []

/-- An `Asset` record of the emitted manifest.  The optional metadata
fields are declared by `lib/types/manifest.ts`; the generator constructs
assets without them. -/
structure Asset where
  id : String
  name : String
  displayName : Option String
  tags : Option (List String)
  sortKey : Option Int
  type : String
  basePath : String
  sizes : List Nat
  formats : List String
  files : List AssetFile
deriving Repr, DecidableEq

/-- Materialization of one group: `sizes` sorted ascending with
`(a, b) => a - b`, `formats` sorted with the default string `sort()`. -/
def materializeAsset (g : AssetGroup) : Asset :=
  { id := g.id
  , name := g.name
  , displayName := none
  , tags := none
  , sortKey := none
  , type := g.type
  , basePath := g.basePath
  , sizes := List.insertionSort (· ≤ ·) g.sizes
  , formats := List.insertionSort strLe g.formats
  , files := g.files }

/-- Assets produced for one `(brand, assetType)` directory listing, in
`Object.values` order of the grouping object. -/
def assetsOfDir (brandId assetType : String) (files : List String) : List Asset :=
  (groupFiles brandId assetType files).map (fun kv => materializeAsset kv.2)

/-- One asset-type directory inside a brand directory, with its `readdir`
file listing in the order the storage returned it. -/
structure TypeDir where
  name : String
  files : List String
deriving Repr, DecidableEq

/-- One brand directory with its type subdirectories in `readdir` order. -/
structure BrandDir where
  name : String
  typeDirs : List TypeDir
deriving Repr, DecidableEq

/-- An `assetTypes` entry of the manifest. -/
structure AssetTypeGroup where
  type : String
  assets : List Asset
deriving Repr, DecidableEq

/-- A `brands` entry of the manifest.  The generator only ever sets `id`,
`name` and `assetTypes`. -/
structure Brand where
  id : String
  name : String
  assetTypes : List AssetTypeGroup
deriving Repr, DecidableEq

/-- The manifest document (without the constant `baseUrls` block).
`generated` is `new Date().toISOString()`, an input of the embedding. -/
structure Manifest where
  generated : String
  version : String
  brands : List Brand
deriving Repr, DecidableEq

/-- Per-type step of `generateManifest`: a type group is pushed only when
`assets.length > 0`. -/
def typeGroupOf (brandId : String) (td : TypeDir) : Option AssetTypeGroup :=
  if (assetsOfDir brandId td.name td.files).length > 0 then
    some ⟨td.name, assetsOfDir brandId td.name td.files⟩
  else none

/-- Per-brand step of `generateManifest`: the brand is pushed only when
`brand.assetTypes.length > 0`; its name is the title-cased id. -/
def brandOf (bd : BrandDir) : Option Brand :=
  if (bd.typeDirs.filterMap (typeGroupOf bd.name)).length > 0 then
    some ⟨bd.name, titleCase bd.name, bd.typeDirs.filterMap (typeGroupOf bd.name)⟩
  else none

/-- The manifest assembler `generateManifest`, as a function of the
generation timestamp and the directory tree in storage-iteration order. -/
def generateManifest (generated : String) (brandDirs : List BrandDir) : Manifest :=
  ⟨generated, "v1", brandDirs.filterMap brandOf⟩

/-- Variant resolution of `updateModalUrls` in `app/main.js`: an exact
`(format, size)` match (`find` returns the first one); otherwise the first
file of the requested format in files-list order; otherwise nothing (the
modal URLs are left unchanged). -/
def resolveFile (files : List AssetFile) (format : String) (size : Option Nat) :
    Option AssetFile :=
  match files.find? (fun f => f.format == format && f.size == size) with
  | some f => some f
  | none => files.find? (fun f => f.format == format)

/-- A flattened catalog record of `app/main.js` (asset denormalized with
its brand context), restricted to the fields the sort comparator reads. -/
structure CatalogItem where
  brandName : String
  assetType : String
  sortKey : Option Int
  displayName : Option String
  name : String
  id : String
  brandId : String
deriving Repr, DecidableEq

/-- Three-way comparison of a linear order, standing in for
`localeCompare` / numeric comparison in the sort comparator (the data
involved is ASCII, where `localeCompare`'s sign agrees with codepoint
order). -/
def cmp3 {α : Type} [LinearOrder α] (a b : α) : Ordering :=
  if a < b then .lt else if a = b then .eq else .gt

/-- Effective tertiary sort key:
`typeof a.sortKey === 'number' ? a.sortKey : 9999`. -/
def effSortKey (a : CatalogItem) : Int :=
  a.sortKey.getD 9999

/-- The quaternary key `a.displayName || a.name || a.id` with JavaScript
falsiness: a missing or empty `displayName` falls back to `name`, an empty
`name` falls back to `id`. -/
def displayNameOf (a : CatalogItem) : String :=
  let n := if a.name = "" then a.id else a.name
  match a.displayName with
  | some s => if s = "" then n else s
  | none => n

/-- The sort comparator of `filterAndRender`: brand name, then asset type,
then effective sort key, then display name (each earlier comparison is
returned as soon as it is non-zero). -/
def cmpAssets (a b : CatalogItem) : Ordering :=
  if strCmp a.brandName b.brandName ≠ Ordering.eq then strCmp a.brandName b.brandName
  else if strCmp a.assetType b.assetType ≠ Ordering.eq then strCmp a.assetType b.assetType
  else if effSortKey a ≠ effSortKey b then cmp3 (effSortKey a) (effSortKey b)
  else strCmp (displayNameOf a) (displayNameOf b)

/-- The non-strict order induced by the comparator (`sort` puts `a` before
`b` when the comparator is non-positive). -/
def leAssets (a b : CatalogItem) : Prop :=
  cmpAssets a b ≠ Ordering.gt

instance : DecidableRel leAssets := fun a b => by
  unfold leAssets; infer_instance

/-- Filter tail of `filterAndRender`: the brand and type filters are
conjunctive; an empty selection set means the filter is inactive. -/
def applyFilters (items : List CatalogItem) (selBrands selTypes : List String) :
    List CatalogItem :=
  let afterBrands :=
    if selBrands ≠ [] then items.filter (fun a => a.brandId ∈ selBrands) else items
  if selTypes ≠ [] then afterBrands.filter (fun a => a.assetType ∈ selTypes)
  else afterBrands

/-- Filter-then-sort tail of `filterAndRender`: the comparator sort is the
final step (the text-search step in front of it is the external fuzzy
engine; its output list is the input here).  `Array.sort` with a
comparator is embedded as a stable sort by the comparator's non-strict
order. -/
def filterAndSort (items : List CatalogItem) (selBrands selTypes : List String) :
    List CatalogItem :=
  List.insertionSort leAssets (applyFilters items selBrands selTypes)

/-- Outcome of one conversion task of `processRasterImage` (the
`sharp` resize/encode call), as observed by the awaiting code. -/
abbrev TaskResult := Except String Unit

/-- Await of the batched `Promise.all` loop of `processRasterImage` and of
the sequential brand loop of `main`: the first rejection in listing order
propagates and later work is not observed; all-fulfilled yields unit.
The concurrency limit of 4 only bounds how many tasks are in flight and
does not change which result propagates. -/
def runTasks : List TaskResult → TaskResult
  | [] => Except.ok ()
  | Except.ok () :: rest => runTasks rest
  | Except.error e :: _ => Except.error e

/-- The `main` flow: brand processing (whose conversion-task results are
`results`) runs to completion first, then and only then is the manifest
generated; a propagated rejection reaches `main().catch`, which exits the
process with code 1 before any manifest is written. -/
def mainRun (results : List TaskResult) (generated : String)
    (brandDirs : List BrandDir) : Except String Manifest :=
  match runTasks results with
  | Except.error e => Except.error e
  | Except.ok () => Except.ok (generateManifest generated brandDirs)

/-! Characterization of the grouping loop: the group of an asset id is a
function of that id's contributions in the listing, independently of the
other files. -/

/-- Asset id a directory entry contributes to, when it parses. -/
def keyOf (file : String) : Option String :=
  (parseFile file).map ParsedFile.assetName

/-- Parse result of a file when it belongs to asset id `k`. -/
def contribOf (k : String) (file : String) : Option ParsedFile :=
  match parseFile file with
  | some p => if p.assetName = k then some p else none
  | none => none

/-- File records contributed to asset id `k`, in listing order. -/
def filesFor (brandId assetType k : String) (fs : List String) : List AssetFile :=
  fs.filterMap (fun file => (contribOf k file).map
    (fun p => ⟨file, p.format, p.size, mkPath brandId assetType file⟩))

/-- Formats contributed to asset id `k`, in listing order. -/
def formatsFor (k : String) (fs : List String) : List String :=
  fs.filterMap (fun file => (contribOf k file).map ParsedFile.format)

/-- Size fields contributed to asset id `k`, in listing order. -/
def sizeEntriesFor (k : String) (fs : List String) : List (Option Nat) :=
  fs.filterMap (fun file => (contribOf k file).map ParsedFile.size)

/-- Extension of a group by all of a listing's contributions to its id. -/
def extendGroup (brandId assetType k : String) (fs : List String) (g : AssetGroup) :
    AssetGroup :=
  { g with
    formats := (formatsFor k fs).foldl addUnique g.formats
  , sizes := (sizeEntriesFor k fs).foldl addSize g.sizes
  , files := g.files ++ filesFor brandId assetType k fs }

/-- First-occurrence deduplication (the key order of a JavaScript object
built by repeated insertion). -/
def dedupFirst {α : Type} [DecidableEq α] (l : List α) : List α :=
  l.foldl addUnique []

/-- An asset up to the order of its `files` array: the claims compare
`files` as sets of records, so the list becomes a multiset. -/
structure AssetView where
  id : String
  name : String
  displayName : Option String
  tags : Option (List String)
  sortKey : Option Int
  type : String
  basePath : String
  sizes : List Nat
  formats : List String
  files : Multiset AssetFile
deriving DecidableEq

/-- View of an emitted asset with its `files` list taken as a multiset. -/
def assetView (a : Asset) : AssetView :=
  ⟨a.id, a.name, a.displayName, a.tags, a.sortKey, a.type, a.basePath,
    a.sizes, a.formats, (a.files : Multiset AssetFile)⟩

/-! Concrete fixtures used by witnesses and counterexamples. -/

/-- A small brand directory: one `logos` directory holding a vector and a
32-pixel raster variant of the same logical asset. -/
def exBrandDir : BrandDir := ⟨"acme", [⟨"logos", ["logo.svg", "logo-32.png"]⟩]⟩

/-- Manifest generated from `exBrandDir` at a fixed timestamp. -/
def exManifest : Manifest := generateManifest "2024-01-01T00:00:00.000Z" [exBrandDir]

/-- The asset the generator emits for `exBrandDir`. -/
def exAsset : Asset :=
  ⟨"logo", "Logo", none, none, none, "logos", "v1/brands/acme/logos/logo",
    [32], ["png", "svg"],
    [⟨"logo.svg", "svg", none, "v1/brands/acme/logos/logo.svg"⟩,
     ⟨"logo-32.png", "png", some 32, "v1/brands/acme/logos/logo-32.png"⟩]⟩

/-- The type group the generator emits for `exBrandDir`. -/
def exTypeGroup : AssetTypeGroup := ⟨"logos", [exAsset]⟩

/-- The brand record the generator emits for `exBrandDir`. -/
def exBrand : Brand := ⟨"acme", "Acme", [exTypeGroup]⟩

/-- Files of an asset holding three raster variants: two PNG sizes (96
before 64 in files-list order) and one WebP. -/
def cexFiles : List AssetFile :=
  [⟨"logo-96.png", "png", some 96, "v1/brands/acme/logos/logo-96.png"⟩,
   ⟨"logo-64.png", "png", some 64, "v1/brands/acme/logos/logo-64.png"⟩,
   ⟨"logo-32.webp", "webp", some 32, "v1/brands/acme/logos/logo-32.webp"⟩]

/-- Catalog record with no `sortKey`. -/
def cexItemNoKey : CatalogItem := ⟨"Acme", "logos", none, none, "Alpha", "alpha", "acme"⟩

/-- Catalog record with the large `sortKey` 10000. -/
def cexItemBigKey : CatalogItem :=
  ⟨"Acme", "logos", some 10000, none, "Beta", "beta", "acme"⟩

/-! Association-list and set-accumulation lemmas. -/

theorem lookupA_updateA_self {α : Type} (k : String) (f : α → α) (d : α)
    (l : List (String × α)) :
    lookupA k (updateA k f d l) = some (f ((lookupA k l).getD d)) := by
  induction l with
  | nil => simp [updateA, lookupA]
  | cons kv rest ih =>
    obtain ⟨k', v⟩ := kv
    by_cases h : k' = k
    · subst h; simp [updateA, lookupA]
    · simp [updateA, lookupA, h, ih]

theorem lookupA_updateA_ne {α : Type} {k k₀ : String} (hne : k₀ ≠ k) (f : α → α)
    (d : α) (l : List (String × α)) :
    lookupA k (updateA k₀ f d l) = lookupA k l := by
  induction l with
  | nil => simp [updateA, lookupA, hne]
  | cons kv rest ih =>
    obtain ⟨k', v⟩ := kv
    by_cases h : k' = k₀
    · subst h; simp [updateA, lookupA, hne, ih]
    · simp only [updateA, if_neg h]
      by_cases h' : k' = k
      · simp [lookupA, h']
      · simp [lookupA, h', ih]

theorem keys_updateA {α : Type} (k : String) (f : α → α) (d : α)
    (l : List (String × α)) :
    (updateA k f d l).map Prod.fst = addUnique (l.map Prod.fst) k := by
  induction l with
  | nil => simp [updateA, addUnique]
  | cons kv rest ih =>
    obtain ⟨k', v⟩ := kv
    by_cases h : k' = k
    · subst h; simp [updateA, addUnique]
    · simp only [updateA, if_neg h, List.map_cons, ih, addUnique, List.mem_cons]
      by_cases hm : k ∈ rest.map Prod.fst
      · simp [hm, h, Ne.symm h]
      · simp [hm, h, Ne.symm h]

theorem lookupA_eq_some_of_mem {α : Type} {l : List (String × α)}
    (hnd : (l.map Prod.fst).Nodup) {kv : String × α} (h : kv ∈ l) :
    lookupA kv.1 l = some kv.2 := by
  induction l with
  | nil => cases h
  | cons kv' rest ih =>
    obtain ⟨k', v'⟩ := kv'
    simp only [List.map_cons, List.nodup_cons] at hnd
    rcases List.mem_cons.mp h with h | h
    · subst h; simp [lookupA]
    · have hmem : kv.1 ∈ rest.map Prod.fst := List.mem_map.mpr ⟨kv, h, rfl⟩
      have hne : k' ≠ kv.1 := fun he => hnd.1 (by rw [he]; exact hmem)
      simp [lookupA, hne, ih hnd.2 h]

theorem mem_addUnique {α : Type} [DecidableEq α] {l : List α} {a x : α} :
    x ∈ addUnique l a ↔ x ∈ l ∨ x = a := by
  unfold addUnique
  by_cases h : a ∈ l
  · simp only [if_pos h]
    constructor
    · exact Or.inl
    · rintro (hx | rfl)
      · exact hx
      · exact h
  · simp [if_neg h]

theorem nodup_addUnique {α : Type} [DecidableEq α] {l : List α} (h : l.Nodup)
    (a : α) : (addUnique l a).Nodup := by
  unfold addUnique
  by_cases hm : a ∈ l
  · simp only [if_pos hm]; exact h
  · simp only [if_neg hm]
    refine List.Nodup.append h (List.nodup_singleton a) ?_
    intro b hb hba
    rw [List.mem_singleton] at hba
    exact hm (hba ▸ hb)

theorem mem_foldl_addUnique {α : Type} [DecidableEq α] (l₂ : List α) :
    ∀ (l₁ : List α) (x : α), x ∈ l₂.foldl addUnique l₁ ↔ x ∈ l₁ ∨ x ∈ l₂ := by
  induction l₂ with
  | nil => simp
  | cons a rest ih =>
    intro l₁ x
    simp only [List.foldl_cons, ih, mem_addUnique, List.mem_cons]
    tauto

theorem nodup_foldl_addUnique {α : Type} [DecidableEq α] (l₂ : List α) :
    ∀ {l₁ : List α}, l₁.Nodup → (l₂.foldl addUnique l₁).Nodup := by
  induction l₂ with
  | nil => simp
  | cons a rest ih =>
    intro l₁ h
    exact ih (nodup_addUnique h a)

theorem addSize_none (l : List Nat) : addSize l none = l := rfl

theorem addSize_some (l : List Nat) (n : Nat) :
    addSize l (some n) = if n ≠ 0 then addUnique l n else l := rfl

theorem mem_addSize {l : List Nat} {o : Option Nat} {s : Nat} :
    s ∈ addSize l o ↔ s ∈ l ∨ (o = some s ∧ s ≠ 0) := by
  match o with
  | none => simp [addSize_none]
  | some n =>
    rw [addSize_some]
    by_cases hn : n ≠ 0
    · rw [if_pos hn, mem_addUnique]
      constructor
      · rintro (hs | rfl)
        · exact Or.inl hs
        · exact Or.inr ⟨rfl, hn⟩
      · rintro (hs | ⟨ho, _⟩)
        · exact Or.inl hs
        · exact Or.inr (by injection ho with ho; exact ho.symm)
    · rw [if_neg hn]
      push_neg at hn
      subst hn
      constructor
      · exact Or.inl
      · rintro (hs | ⟨ho, hs⟩)
        · exact hs
        · exact absurd (by injection ho with ho; exact ho.symm) hs

theorem mem_foldl_addSize (l₂ : List (Option Nat)) :
    ∀ (l₁ : List Nat) (s : Nat),
      s ∈ l₂.foldl addSize l₁ ↔ s ∈ l₁ ∨ (some s ∈ l₂ ∧ s ≠ 0) := by
  induction l₂ with
  | nil => simp
  | cons o rest ih =>
    intro l₁ s
    simp only [List.foldl_cons, ih, mem_addSize, List.mem_cons]
    constructor
    · rintro ((hs | ⟨rfl, hs⟩) | hs)
      · exact Or.inl hs
      · exact Or.inr ⟨Or.inl rfl, hs⟩
      · exact Or.inr ⟨Or.inr hs.1, hs.2⟩
    · rintro (hs | ⟨ho | ho, hs⟩)
      · exact Or.inl (Or.inl hs)
      · exact Or.inl (Or.inr ⟨ho.symm, hs⟩)
      · exact Or.inr ⟨ho, hs⟩

theorem nodup_addSize {l : List Nat} (h : l.Nodup) (o : Option Nat) :
    (addSize l o).Nodup := by
  match o with
  | none => exact h
  | some n =>
    rw [addSize_some]
    by_cases hn : n ≠ 0
    · rw [if_pos hn]; exact nodup_addUnique h n
    · rw [if_neg hn]; exact h

theorem nodup_foldl_addSize (l₂ : List (Option Nat)) :
    ∀ {l₁ : List Nat}, l₁.Nodup → (l₂.foldl addSize l₁).Nodup := by
  induction l₂ with
  | nil => simp
  | cons o rest ih =>
    intro l₁ h
    exact ih (nodup_addSize h o)

theorem mem_dedupFirst {α : Type} [DecidableEq α] {l : List α} {x : α} :
    x ∈ dedupFirst l ↔ x ∈ l := by
  simp [dedupFirst, mem_foldl_addUnique]

theorem nodup_dedupFirst {α : Type} [DecidableEq α] (l : List α) :
    (dedupFirst l).Nodup :=
  nodup_foldl_addUnique l List.nodup_nil

theorem dedupFirst_perm_of_perm {α : Type} [DecidableEq α] {l l' : List α}
    (h : List.Perm l l') : List.Perm (dedupFirst l) (dedupFirst l') := by
  refine (List.perm_ext_iff_of_nodup (nodup_dedupFirst l) (nodup_dedupFirst l')).mpr ?_
  intro a
  simp only [mem_dedupFirst]
  exact ⟨fun ha => h.mem_iff.mp ha, fun ha => h.mem_iff.mpr ha⟩

/-- Two duplicate-free lists with the same members sort to the same array,
for any total, transitive, antisymmetric decidable order. -/
theorem insertionSort_eq_of_mem_iff {α : Type} {r : α → α → Prop} [DecidableRel r]
    (htotal : ∀ a b, r a b ∨ r b a)
    (htrans : ∀ {a b c}, r a b → r b c → r a c)
    (hanti : ∀ {a b}, r a b → r b a → a = b)
    {l l' : List α} (h1 : l.Nodup) (h2 : l'.Nodup) (hm : ∀ x, x ∈ l ↔ x ∈ l') :
    List.insertionSort r l = List.insertionSort r l' := by
  haveI : IsTotal α r := ⟨htotal⟩
  haveI : IsTrans α r := ⟨fun _ _ _ => htrans⟩
  haveI : IsAntisymm α r := ⟨fun _ _ => hanti⟩
  have hp : List.Perm l l' := (List.perm_ext_iff_of_nodup h1 h2).mpr hm
  exact List.eq_of_perm_of_sorted
    (((List.perm_insertionSort _ l).trans hp).trans
      (List.perm_insertionSort _ l').symm)
    (List.sorted_insertionSort _ l) (List.sorted_insertionSort _ l')

/-! Contribution lists over a cons, and extension over a cons. -/

theorem contribOf_eq_some {k f : String} {p : ParsedFile}
    (hp : parseFile f = some p) (hk : p.assetName = k) :
    contribOf k f = some p := by
  simp [contribOf, hp, hk]

theorem contribOf_eq_none_of_ne {k f : String} {p : ParsedFile}
    (hp : parseFile f = some p) (hk : p.assetName ≠ k) :
    contribOf k f = none := by
  simp [contribOf, hp, hk]

theorem contribOf_eq_none_of_unparsed {k f : String}
    (hp : parseFile f = none) : contribOf k f = none := by
  simp [contribOf, hp]

theorem formatsFor_cons (k f : String) (fs : List String) :
    formatsFor k (f :: fs) =
      match contribOf k f with
      | some p => p.format :: formatsFor k fs
      | none => formatsFor k fs := by
  cases h : contribOf k f <;> simp [formatsFor, List.filterMap_cons, h]

theorem sizeEntriesFor_cons (k f : String) (fs : List String) :
    sizeEntriesFor k (f :: fs) =
      match contribOf k f with
      | some p => p.size :: sizeEntriesFor k fs
      | none => sizeEntriesFor k fs := by
  cases h : contribOf k f <;> simp [sizeEntriesFor, List.filterMap_cons, h]

theorem filesFor_cons (b t k f : String) (fs : List String) :
    filesFor b t k (f :: fs) =
      match contribOf k f with
      | some p => ⟨f, p.format, p.size, mkPath b t f⟩ :: filesFor b t k fs
      | none => filesFor b t k fs := by
  cases h : contribOf k f <;> simp [filesFor, List.filterMap_cons, h]

theorem extendGroup_nil (b t k : String) (g : AssetGroup) :
    extendGroup b t k [] g = g := by
  simp [extendGroup, formatsFor, sizeEntriesFor, filesFor]

theorem extendGroup_cons_hit (b t : String) {k f : String} {p : ParsedFile}
    (hp : parseFile f = some p) (hk : p.assetName = k) (fs : List String)
    (g : AssetGroup) :
    extendGroup b t k (f :: fs) g = extendGroup b t k fs (applyFile p b t f g) := by
  have hc := contribOf_eq_some hp hk
  simp [extendGroup, applyFile, formatsFor_cons, sizeEntriesFor_cons, filesFor_cons, hc]

theorem extendGroup_cons_miss (b t : String) {k f : String}
    (hc : contribOf k f = none) (fs : List String) (g : AssetGroup) :
    extendGroup b t k (f :: fs) g = extendGroup b t k fs g := by
  simp [extendGroup, formatsFor_cons, sizeEntriesFor_cons, filesFor_cons, hc]

/-- Characterization of the grouping fold: the entry at key `k` after
processing the listing `fs` on top of an accumulator is the accumulator's
entry (or, when `k` is new and contributes, a fresh skeleton) extended by
exactly `k`'s contributions, in listing order. -/
theorem lookupA_foldl_addFile (b t k : String) (fs : List String)
    (acc : List (String × AssetGroup)) :
    lookupA k (fs.foldl (addFile b t) acc) =
      match lookupA k acc with
      | some g => some (extendGroup b t k fs g)
      | none =>
          if formatsFor k fs = [] then none
          else some (extendGroup b t k fs (skeleton b t k)) := by
  induction fs generalizing acc with
  | nil =>
    cases h : lookupA k acc with
    | none => simp [formatsFor, h]
    | some g => simp [extendGroup_nil, h]
  | cons f fs ih =>
    rw [List.foldl_cons, ih]
    cases hp : parseFile f with
    | none =>
      have hc := contribOf_eq_none_of_unparsed (k := k) hp
      have : addFile b t acc f = acc := by simp [addFile, hp]
      rw [this]
      cases h : lookupA k acc with
      | none =>
        simp only [formatsFor_cons, hc, extendGroup_cons_miss b t hc]
      | some g =>
        simp only [extendGroup_cons_miss b t hc]
    | some p =>
      by_cases hk : p.assetName = k
      · subst hk
        have hstep : addFile b t acc f =
            updateA p.assetName (applyFile p b t f) (skeleton b t p.assetName) acc := by
          simp [addFile, hp]
        rw [hstep, lookupA_updateA_self]
        have hc := contribOf_eq_some hp rfl
        cases h : lookupA p.assetName acc with
        | none =>
          have hne : formatsFor p.assetName (f :: fs) ≠ [] := by
            simp [formatsFor_cons, hc]
          simp only [h, Option.getD_none, if_neg hne,
            extendGroup_cons_hit b t hp rfl]
        | some g =>
          simp only [h, Option.getD_some, extendGroup_cons_hit b t hp rfl]
      · have hc := contribOf_eq_none_of_ne hp hk
        have hstep : addFile b t acc f =
            updateA p.assetName (applyFile p b t f) (skeleton b t p.assetName) acc := by
          simp [addFile, hp]
        rw [hstep, lookupA_updateA_ne hk]
        cases h : lookupA k acc with
        | none =>
          simp only [formatsFor_cons, hc, extendGroup_cons_miss b t hc]
        | some g =>
          simp only [extendGroup_cons_miss b t hc]

/-- Key order of the grouping object: first-occurrence order of the parsed
asset ids. -/
theorem keys_foldl_addFile (b t : String) (fs : List String)
    (acc : List (String × AssetGroup)) :
    (fs.foldl (addFile b t) acc).map Prod.fst =
      (fs.filterMap keyOf).foldl addUnique (acc.map Prod.fst) := by
  induction fs generalizing acc with
  | nil => simp
  | cons f fs ih =>
    rw [List.foldl_cons, ih]
    cases hp : parseFile f with
    | none =>
      have : addFile b t acc f = acc := by simp [addFile, hp]
      simp [this, keyOf, List.filterMap_cons, hp]
    | some p =>
      have hstep : addFile b t acc f =
          updateA p.assetName (applyFile p b t f) (skeleton b t p.assetName) acc := by
        simp [addFile, hp]
      simp [hstep, keys_updateA, keyOf, List.filterMap_cons, hp]

theorem keys_groupFiles (b t : String) (fs : List String) :
    (groupFiles b t fs).map Prod.fst = dedupFirst (fs.filterMap keyOf) := by
  simpa [dedupFirst] using keys_foldl_addFile b t fs []

theorem nodup_keys_groupFiles (b t : String) (fs : List String) :
    ((groupFiles b t fs).map Prod.fst).Nodup := by
  rw [keys_groupFiles]
  exact nodup_dedupFirst _

theorem lookupA_groupFiles (b t k : String) (fs : List String) :
    lookupA k (groupFiles b t fs) =
      if formatsFor k fs = [] then none
      else some (extendGroup b t k fs (skeleton b t k)) := by
  simpa [lookupA] using lookupA_foldl_addFile b t k fs []

/-- Every group in the grouping result is the skeleton of its key extended
by the key's contributions; hence a map over the groups is a map over the
deduplicated key stream. -/
theorem map_groupFiles_eq {β : Type} (b t : String) (fs : List String)
    (F : AssetGroup → β) :
    (groupFiles b t fs).map (fun kv => F kv.2) =
      (dedupFirst (fs.filterMap keyOf)).map
        (fun k => F (extendGroup b t k fs (skeleton b t k))) := by
  have hval : ∀ kv ∈ groupFiles b t fs,
      F kv.2 = F (extendGroup b t kv.1 fs (skeleton b t kv.1)) := by
    intro kv hkv
    have hl := lookupA_eq_some_of_mem (nodup_keys_groupFiles b t fs) hkv
    rw [lookupA_groupFiles] at hl
    by_cases he : formatsFor kv.1 fs = []
    · rw [if_pos he] at hl; cases hl
    · rw [if_neg he] at hl
      injection hl with hl
      rw [← hl]
  calc (groupFiles b t fs).map (fun kv => F kv.2)
      = (groupFiles b t fs).map
          (fun kv => F (extendGroup b t kv.1 fs (skeleton b t kv.1))) :=
        List.map_congr_left hval
    _ = ((groupFiles b t fs).map Prod.fst).map
          (fun k => F (extendGroup b t k fs (skeleton b t k))) := by
        rw [List.map_map]; rfl
    _ = (dedupFirst (fs.filterMap keyOf)).map
          (fun k => F (extendGroup b t k fs (skeleton b t k))) := by
        rw [keys_groupFiles]

/-! Comparator lemmas. -/

theorem ordering_eq_then (x : Ordering) : Ordering.eq.then x = x := rfl

theorem ordering_lt_then (x : Ordering) : Ordering.lt.then x = Ordering.lt := rfl

theorem ordering_gt_then (x : Ordering) : Ordering.gt.then x = Ordering.gt := rfl

theorem cmp3_eq_lt_iff {α : Type} [LinearOrder α] {a b : α} :
    cmp3 a b = Ordering.lt ↔ a < b := by
  unfold cmp3
  split_ifs with h1 h2
  · simp [h1]
  · simp [h1]
  · simp [h1]

theorem cmp3_eq_eq_iff {α : Type} [LinearOrder α] {a b : α} :
    cmp3 a b = Ordering.eq ↔ a = b := by
  unfold cmp3
  split_ifs with h1 h2
  · simp [ne_of_lt h1]
  · simp [h2]
  · simp [h2]

theorem cmp3_eq_gt_iff {α : Type} [LinearOrder α] {a b : α} :
    cmp3 a b = Ordering.gt ↔ b < a := by
  unfold cmp3
  split_ifs with h1 h2
  · simp [lt_asymm h1]
  · simp [h2, lt_irrefl]
  · simp [lt_of_le_of_ne (le_of_not_lt h1) (Ne.symm h2)]

theorem cmp3_self {α : Type} [LinearOrder α] (a : α) : cmp3 a a = Ordering.eq := by
  simp [cmp3]

theorem cmp3_swap {α : Type} [LinearOrder α] (a b : α) :
    cmp3 b a = (cmp3 a b).swap := by
  rcases lt_trichotomy a b with h | h | h
  · rw [cmp3_eq_lt_iff.mpr h, show cmp3 b a = Ordering.gt from cmp3_eq_gt_iff.mpr h]
    rfl
  · subst h
    rw [cmp3_self]
    rfl
  · rw [show cmp3 a b = Ordering.gt from cmp3_eq_gt_iff.mpr h, cmp3_eq_lt_iff.mpr h]
    rfl

/-! Character-list comparison lemmas. -/

theorem cmpc_self : ∀ l : List Char, cmpc l l = Ordering.eq
  | [] => rfl
  | c :: cs => by
      rw [show cmpc (c :: cs) (c :: cs) =
        (if c < c then Ordering.lt else if c < c then Ordering.gt else cmpc cs cs)
        from rfl]
      rw [if_neg (lt_irrefl c), if_neg (lt_irrefl c)]
      exact cmpc_self cs

theorem cmpc_eq_iff : ∀ {l₁ l₂ : List Char}, cmpc l₁ l₂ = Ordering.eq ↔ l₁ = l₂
  | [], [] => by simp [cmpc]
  | [], _ :: _ => by simp [cmpc]
  | _ :: _, [] => by simp [cmpc]
  | c :: cs, d :: ds => by
      rw [show cmpc (c :: cs) (d :: ds) =
        (if c < d then Ordering.lt else if d < c then Ordering.gt else cmpc cs ds)
        from rfl]
      by_cases h1 : c < d
      · simp [h1, ne_of_lt h1]
      · by_cases h2 : d < c
        · simp [h1, h2, (ne_of_lt h2).symm]
        · have hcd : c = d := le_antisymm (le_of_not_lt h2) (le_of_not_lt h1)
          subst hcd
          simp [h1, h2, cmpc_eq_iff]

theorem cmpc_swap : ∀ l₁ l₂ : List Char, cmpc l₂ l₁ = (cmpc l₁ l₂).swap
  | [], [] => rfl
  | [], _ :: _ => rfl
  | _ :: _, [] => rfl
  | c :: cs, d :: ds => by
      rw [show cmpc (c :: cs) (d :: ds) =
        (if c < d then Ordering.lt else if d < c then Ordering.gt else cmpc cs ds)
        from rfl]
      rw [show cmpc (d :: ds) (c :: cs) =
        (if d < c then Ordering.lt else if c < d then Ordering.gt else cmpc ds cs)
        from rfl]
      by_cases h1 : c < d
      · rw [if_pos h1, if_neg (lt_asymm h1), if_pos h1]
        rfl
      · by_cases h2 : d < c
        · rw [if_pos h2, if_neg h1, if_pos h2]
          rfl
        · rw [if_neg h2, if_neg h1, if_neg h1, if_neg h2]
          exact cmpc_swap cs ds

theorem cmpc_lt_trans :
    ∀ {l₁ l₂ l₃ : List Char}, cmpc l₁ l₂ = Ordering.lt →
      cmpc l₂ l₃ = Ordering.lt → cmpc l₁ l₃ = Ordering.lt
  | l₁, [], _, h12, _ => by cases l₁ <;> simp [cmpc] at h12
  | [], _ :: _, [], _, h23 => by simp [cmpc] at h23
  | [], _ :: _, _ :: _, _, _ => rfl
  | _ :: _, _ :: _, [], _, h23 => by simp [cmpc] at h23
  | c :: cs, d :: ds, e :: es, h12, h23 => by
      rw [show cmpc (c :: cs) (d :: ds) =
        (if c < d then Ordering.lt else if d < c then Ordering.gt else cmpc cs ds)
        from rfl] at h12
      rw [show cmpc (d :: ds) (e :: es) =
        (if d < e then Ordering.lt else if e < d then Ordering.gt else cmpc ds es)
        from rfl] at h23
      rw [show cmpc (c :: cs) (e :: es) =
        (if c < e then Ordering.lt else if e < c then Ordering.gt else cmpc cs es)
        from rfl]
      by_cases h1 : c < d
      · by_cases h2 : d < e
        · rw [if_pos (lt_trans h1 h2)]
        · by_cases h3 : e < d
          · rw [if_neg h2, if_pos h3] at h23
            cases h23
          · have hde : d = e := le_antisymm (le_of_not_lt h3) (le_of_not_lt h2)
            subst hde
            rw [if_pos h1]
      · by_cases h1' : d < c
        · rw [if_pos h1'] at h12
          rw [if_neg h1] at h12
          cases h12
        · have hcd : c = d := le_antisymm (le_of_not_lt h1') (le_of_not_lt h1)
          subst hcd
          rw [if_neg h1, if_neg h1'] at h12
          by_cases h2 : c < e
          · rw [if_pos h2]
          · by_cases h3 : e < c
            · rw [if_neg h2, if_pos h3] at h23
              cases h23
            · have hce : c = e := le_antisymm (le_of_not_lt h3) (le_of_not_lt h2)
              subst hce
              rw [if_neg h2, if_neg h3] at h23
              rw [if_neg h2, if_neg h3]
              exact cmpc_lt_trans h12 h23

/-! String comparison lemmas. -/

theorem string_data_inj {a b : String} (h : a.data = b.data) : a = b := by
  cases a
  cases b
  exact congrArg String.mk h

theorem strCmp_self (a : String) : strCmp a a = Ordering.eq := cmpc_self a.data

theorem strCmp_eq_iff {a b : String} : strCmp a b = Ordering.eq ↔ a = b := by
  unfold strCmp
  rw [cmpc_eq_iff]
  exact ⟨string_data_inj, fun h => h ▸ rfl⟩

theorem strCmp_swap (a b : String) : strCmp b a = (strCmp a b).swap :=
  cmpc_swap a.data b.data

theorem strCmp_lt_trans {a b c : String} (h1 : strCmp a b = Ordering.lt)
    (h2 : strCmp b c = Ordering.lt) : strCmp a c = Ordering.lt :=
  cmpc_lt_trans h1 h2

theorem strLe_total (a b : String) : strLe a b ∨ strLe b a := by
  unfold strLe
  by_cases h : strCmp a b = Ordering.gt
  · refine Or.inr ?_
    rw [strCmp_swap, h]
    simp [Ordering.swap]
  · exact Or.inl h

theorem strLe_trans {a b c : String} (hab : strLe a b) (hbc : strLe b c) :
    strLe a c := by
  unfold strLe at hab hbc ⊢
  cases h1 : strCmp a b with
  | gt => exact absurd h1 hab
  | eq =>
    rw [strCmp_eq_iff.mp h1]
    exact hbc
  | lt =>
    cases h2 : strCmp b c with
    | gt => exact absurd h2 hbc
    | eq =>
      rw [← strCmp_eq_iff.mp h2, h1]
      simp
    | lt =>
      rw [strCmp_lt_trans h1 h2]
      simp

theorem strLe_antisymm {a b : String} (hab : strLe a b) (hba : strLe b a) :
    a = b := by
  unfold strLe at hab hba
  cases h : strCmp a b with
  | eq => exact strCmp_eq_iff.mp h
  | gt => exact absurd h hab
  | lt =>
    refine absurd ?_ hba
    rw [strCmp_swap, h]
    rfl

/-! Lexicographic composition of the comparator via `Ordering.then`. -/

theorem ite_ne_then (x y : Ordering) :
    (if x ≠ Ordering.eq then x else y) = x.then y := by
  cases x <;> simp [Ordering.then]

theorem ite_int_ne_then (m n : Int) (y : Ordering) :
    (if m ≠ n then cmp3 m n else y) = (cmp3 m n).then y := by
  by_cases h : m = n
  · subst h
    rw [if_neg (by simp), cmp3_self, ordering_eq_then]
  · rw [if_pos h]
    cases hx : cmp3 m n with
    | lt => rw [ordering_lt_then]
    | gt => rw [ordering_gt_then]
    | eq => exact absurd (cmp3_eq_eq_iff.mp hx) h

theorem then_swap (x y : Ordering) : (x.then y).swap = x.swap.then y.swap := by
  cases x <;> rfl

theorem then_eq_iff {x y : Ordering} :
    x.then y = Ordering.eq ↔ x = Ordering.eq ∧ y = Ordering.eq := by
  cases x <;> simp [Ordering.then]

theorem then_lt_cases {x y : Ordering} (h : x.then y = Ordering.lt) :
    x = Ordering.lt ∨ (x = Ordering.eq ∧ y = Ordering.lt) := by
  cases x <;> simp_all [Ordering.then]

theorem lt_then (y : Ordering) {x : Ordering} (h : x = Ordering.lt) :
    x.then y = Ordering.lt := by
  subst h
  rfl

theorem eq_then_lt {x y : Ordering} (hx : x = Ordering.eq)
    (hy : y = Ordering.lt) : x.then y = Ordering.lt := by
  subst hx
  rw [ordering_eq_then, hy]

/-- The comparator as an `Ordering.then` chain of its four keys. -/
theorem cmpAssets_then (a b : CatalogItem) :
    cmpAssets a b =
      (strCmp a.brandName b.brandName).then
        ((strCmp a.assetType b.assetType).then
          ((cmp3 (effSortKey a) (effSortKey b)).then
            (strCmp (displayNameOf a) (displayNameOf b)))) := by
  unfold cmpAssets
  rw [ite_ne_then, ite_ne_then, ite_int_ne_then]

theorem cmpAssets_eq_iff {a b : CatalogItem} :
    cmpAssets a b = Ordering.eq ↔
      a.brandName = b.brandName ∧ a.assetType = b.assetType ∧
        effSortKey a = effSortKey b ∧ displayNameOf a = displayNameOf b := by
  rw [cmpAssets_then, then_eq_iff, then_eq_iff, then_eq_iff,
    strCmp_eq_iff, strCmp_eq_iff, strCmp_eq_iff, cmp3_eq_eq_iff]

theorem cmpAssets_swap (a b : CatalogItem) :
    cmpAssets b a = (cmpAssets a b).swap := by
  rw [cmpAssets_then a b, cmpAssets_then b a, then_swap, then_swap, then_swap,
    strCmp_swap a.brandName b.brandName, strCmp_swap a.assetType b.assetType,
    cmp3_swap (effSortKey a) (effSortKey b),
    strCmp_swap (displayNameOf a) (displayNameOf b)]

theorem cmpAssets_congr_left {a b : CatalogItem} (c : CatalogItem)
    (h : cmpAssets a b = Ordering.eq) : cmpAssets a c = cmpAssets b c := by
  rcases cmpAssets_eq_iff.mp h with ⟨h1, h2, h3, h4⟩
  rw [cmpAssets_then a c, cmpAssets_then b c, h1, h2, h3, h4]

theorem cmpAssets_congr_right (a : CatalogItem) {b c : CatalogItem}
    (h : cmpAssets b c = Ordering.eq) : cmpAssets a c = cmpAssets a b := by
  rcases cmpAssets_eq_iff.mp h with ⟨h1, h2, h3, h4⟩
  rw [cmpAssets_then a c, cmpAssets_then a b, ← h1, ← h2, ← h3, ← h4]

theorem cmpAssets_trans {a b c : CatalogItem} (hab : cmpAssets a b = Ordering.lt)
    (hbc : cmpAssets b c = Ordering.lt) : cmpAssets a c = Ordering.lt := by
  rw [cmpAssets_then] at hab hbc ⊢
  rcases then_lt_cases hab with h1 | ⟨h1, hab'⟩
  · rcases then_lt_cases hbc with h2 | ⟨h2, _⟩
    · exact lt_then _ (strCmp_lt_trans h1 h2)
    · rw [← strCmp_eq_iff.mp h2]
      exact lt_then _ h1
  · rw [strCmp_eq_iff.mp h1]
    rcases then_lt_cases hbc with h2 | ⟨h2, hbc'⟩
    · exact lt_then _ h2
    · refine eq_then_lt h2 ?_
      rcases then_lt_cases hab' with h3 | ⟨h3, hab''⟩
      · rcases then_lt_cases hbc' with h4 | ⟨h4, _⟩
        · exact lt_then _ (strCmp_lt_trans h3 h4)
        · rw [← strCmp_eq_iff.mp h4]
          exact lt_then _ h3
      · rw [strCmp_eq_iff.mp h3]
        rcases then_lt_cases hbc' with h4 | ⟨h4, hbc''⟩
        · exact lt_then _ h4
        · refine eq_then_lt h4 ?_
          rcases then_lt_cases hab'' with h5 | ⟨h5, hab3⟩
          · rcases then_lt_cases hbc'' with h6 | ⟨h6, _⟩
            · exact lt_then _ (cmp3_eq_lt_iff.mpr
                (lt_trans (cmp3_eq_lt_iff.mp h5) (cmp3_eq_lt_iff.mp h6)))
            · rw [← cmp3_eq_eq_iff.mp h6]
              exact lt_then _ h5
          · rw [cmp3_eq_eq_iff.mp h5]
            rcases then_lt_cases hbc'' with h6 | ⟨h6, hbc3⟩
            · exact lt_then _ h6
            · exact eq_then_lt h6 (strCmp_lt_trans hab3 hbc3)

theorem cmpAssets_not_gt_iff {a b : CatalogItem} :
    cmpAssets a b ≠ Ordering.gt ↔
      cmpAssets a b = Ordering.lt ∨ cmpAssets a b = Ordering.eq := by
  cases cmpAssets a b <;> simp

theorem leAssets_total (a b : CatalogItem) : leAssets a b ∨ leAssets b a := by
  unfold leAssets
  by_cases h : cmpAssets a b = Ordering.gt
  · refine Or.inr ?_
    rw [cmpAssets_swap, h]
    simp [Ordering.swap]
  · exact Or.inl h

theorem leAssets_trans {a b c : CatalogItem} (hab : leAssets a b)
    (hbc : leAssets b c) : leAssets a c := by
  unfold leAssets at hab hbc ⊢
  rcases cmpAssets_not_gt_iff.mp hab with h1 | h1
  · rcases cmpAssets_not_gt_iff.mp hbc with h2 | h2
    · rw [cmpAssets_trans h1 h2]
      simp
    · rw [cmpAssets_congr_right a h2, h1]
      simp
  · rw [cmpAssets_congr_left c h1]
    exact hbc

/-! Lemmas on the embedded error flow. -/

theorem runTasks_eq_ok_iff (rs : List TaskResult) :
    runTasks rs = Except.ok () ↔ ∀ r ∈ rs, r = Except.ok () := by
  induction rs with
  | nil => simp [runTasks]
  | cons r rest ih =>
    cases r with
    | ok u => cases u; simp [runTasks, ih]
    | error e => simp [runTasks]

theorem runTasks_error_of_mem {rs : List TaskResult} {e : String}
    (h : Except.error e ∈ rs) : ∃ e', runTasks rs = Except.error e' := by
  induction rs with
  | nil => cases h
  | cons r rest ih =>
    cases r with
    | ok u => cases u; rcases List.mem_cons.mp h with h' | h'
              · cases h'
              · exact ih h'
    | error e' => exact ⟨e', rfl⟩

/-! Lemmas on manifest assembly. -/

theorem assetsOfDir_eq_nil_iff (b t : String) (fs : List String) :
    assetsOfDir b t fs = [] ↔ ∀ f ∈ fs, parseFile f = none := by
  unfold assetsOfDir
  rw [List.map_eq_nil_iff]
  constructor
  · intro hg f hf
    by_contra hp
    rcases Option.ne_none_iff_exists'.mp hp with ⟨p, hp⟩
    have hk : (keyOf f).isSome := by simp [keyOf, hp]
    have hne : fs.filterMap keyOf ≠ [] := by
      intro hnil
      rw [List.filterMap_eq_nil_iff] at hnil
      rw [hnil f hf] at hk
      cases hk
    have : dedupFirst (fs.filterMap keyOf) = [] := by
      rw [← keys_groupFiles b t fs, hg]
      rfl
    rcases List.exists_mem_of_ne_nil _ hne with ⟨k, hkm⟩
    have : k ∈ ([] : List String) := by
      rw [← this]
      exact mem_dedupFirst.mpr hkm
    cases this
  · intro hall
    unfold groupFiles
    induction fs with
    | nil => rfl
    | cons f rest ih =>
      rw [List.foldl_cons]
      have hf : parseFile f = none := hall f (List.mem_cons_self f rest)
      rw [show addFile b t [] f = [] by simp [addFile, hf]]
      exact ih (fun g hg => hall g (List.mem_cons_of_mem f hg))

theorem filterMap_typeGroupOf (bId : String) (tds : List TypeDir) :
    tds.filterMap (typeGroupOf bId) =
      (tds.filter
          (fun td => !(assetsOfDir bId td.name td.files).isEmpty)).map
        (fun td => ⟨td.name, assetsOfDir bId td.name td.files⟩) := by
  induction tds with
  | nil => rfl
  | cons td rest ih =>
    rw [List.filterMap_cons, List.filter_cons]
    by_cases h : assetsOfDir bId td.name td.files = []
    · have h1 : typeGroupOf bId td = none := by
        simp [typeGroupOf, h]
      have h2 : (!(assetsOfDir bId td.name td.files).isEmpty) = false := by
        simp [h]
      rw [h1, h2, ih]
      rfl
    · have hl : 0 < (assetsOfDir bId td.name td.files).length :=
        List.length_pos.mpr h
      have h1 : typeGroupOf bId td =
          some ⟨td.name, assetsOfDir bId td.name td.files⟩ := by
        simp [typeGroupOf, hl]
      have h2 : (!(assetsOfDir bId td.name td.files).isEmpty) = true := by
        simp [List.isEmpty_iff, h]
      rw [h1, h2, ih]
      rfl

/-! Claim theorems. -/

/-- C2: Variant grouping is order-independent: for every list of filenames
within one `(brand, assetType)` directory and every permutation of that
list, grouping yields an equal set of Asset records — formats and sizes
accumulate as sets (materialized as alphabetically-sorted and
ascending-sorted unique arrays), and the `files` lists are equal as sets of
records even if their order differs. -/
theorem c2_grouping_order_independent (b t : String) (fs fs' : List String)
    (h : List.Perm fs fs') :
    List.Perm ((assetsOfDir b t fs).map assetView)
      ((assetsOfDir b t fs').map assetView) := by
  have hmap : ∀ gs : List String,
      (assetsOfDir b t gs).map assetView =
        (dedupFirst (gs.filterMap keyOf)).map
          (fun k => assetView (materializeAsset (extendGroup b t k gs (skeleton b t k)))) := by
    intro gs
    unfold assetsOfDir
    rw [List.map_map]
    exact map_groupFiles_eq b t gs (fun g => assetView (materializeAsset g))
  have hG : ∀ k : String,
      assetView (materializeAsset (extendGroup b t k fs (skeleton b t k))) =
        assetView (materializeAsset (extendGroup b t k fs' (skeleton b t k))) := by
    intro k
    have hfmt : List.Perm (formatsFor k fs) (formatsFor k fs') := h.filterMap _
    have hsz : List.Perm (sizeEntriesFor k fs) (sizeEntriesFor k fs') := h.filterMap _
    have hfl : List.Perm (filesFor b t k fs) (filesFor b t k fs') := h.filterMap _
    have hformats :
        List.insertionSort strLe ((formatsFor k fs).foldl addUnique []) =
          List.insertionSort strLe ((formatsFor k fs').foldl addUnique []) := by
      refine insertionSort_eq_of_mem_iff strLe_total strLe_trans strLe_antisymm
        (nodup_foldl_addUnique _ List.nodup_nil)
        (nodup_foldl_addUnique _ List.nodup_nil) ?_
      intro x
      rw [mem_foldl_addUnique, mem_foldl_addUnique]
      simp only [List.not_mem_nil, false_or]
      exact hfmt.mem_iff
    have hsizes :
        List.insertionSort (· ≤ ·) ((sizeEntriesFor k fs).foldl addSize []) =
          List.insertionSort (· ≤ ·) ((sizeEntriesFor k fs').foldl addSize []) := by
      refine insertionSort_eq_of_mem_iff
        (fun a b : Nat => Nat.le_total a b)
        (fun h1 h2 => le_trans h1 h2)
        (fun h1 h2 => le_antisymm h1 h2)
        (nodup_foldl_addSize _ List.nodup_nil)
        (nodup_foldl_addSize _ List.nodup_nil) ?_
      intro x
      rw [mem_foldl_addSize, mem_foldl_addSize]
      simp only [List.not_mem_nil, false_or]
      exact and_congr_left fun _ => hsz.mem_iff
    have hfiles : ((filesFor b t k fs : List AssetFile) : Multiset AssetFile) =
        ((filesFor b t k fs' : List AssetFile) : Multiset AssetFile) :=
      Multiset.coe_eq_coe.mpr hfl
    simp only [assetView, materializeAsset, extendGroup, skeleton, List.nil_append]
    rw [AssetView.mk.injEq]
    exact ⟨rfl, rfl, rfl, rfl, rfl, rfl, rfl, hsizes, hformats, hfiles⟩
  rw [hmap fs, hmap fs']
  have hkperm := dedupFirst_perm_of_perm (h.filterMap keyOf)
  refine (hkperm.map _).trans ?_
  rw [List.map_congr_left fun k _ => hG k]

/-- Witness for C2: the two-file listing of `exBrandDir` and its swap give
permutation-equal asset views. -/
theorem c2_grouping_order_independent_witness :
    List.Perm ["logo.svg", "logo-32.png"] ["logo-32.png", "logo.svg"] ∧
      List.Perm ((assetsOfDir "acme" "logos" ["logo.svg", "logo-32.png"]).map assetView)
        ((assetsOfDir "acme" "logos" ["logo-32.png", "logo.svg"]).map assetView) :=
  ⟨List.Perm.swap _ _ _,
    c2_grouping_order_independent "acme" "logos" _ _ (List.Perm.swap _ _ _)⟩

/-- C3 counterexample: the assembler performs no sort by asset id — the
listing `["b.svg", "a.svg"]` yields assets in id order `["b", "a"]`, which
is not ascending. -/
theorem c3_counterexample_no_sort_by_id :
    (assetsOfDir "acme" "logos" ["b.svg", "a.svg"]).map Asset.id = ["b", "a"] ∧
      ¬ List.Sorted strLe ((assetsOfDir "acme" "logos" ["b.svg", "a.svg"]).map Asset.id) := by
  constructor
  · rfl
  · decide

/-- C3 amended: the assembler applies no sort by id before emission; the
assets of a type group appear in order of first occurrence of their asset
id in the directory listing, so the emitted order follows the storage's
iteration order. -/
theorem c3_amended_first_occurrence_order (b t : String) (fs : List String) :
    (assetsOfDir b t fs).map Asset.id = dedupFirst (fs.filterMap keyOf) := by
  unfold assetsOfDir
  rw [List.map_map]
  calc (groupFiles b t fs).map (fun kv => kv.2.id)
      = (dedupFirst (fs.filterMap keyOf)).map
          (fun k => (extendGroup b t k fs (skeleton b t k)).id) :=
        map_groupFiles_eq b t fs (fun g => g.id)
    _ = dedupFirst (fs.filterMap keyOf) := List.map_id _

/-- C1: the generator never reads the metadata documents at all — every
asset in the emitted manifest is constructed without `displayName` and
without `tags`, even when a metadata entry exists on disk; so the emitted
`displayName` is never equal to `name`, it is absent. -/
theorem c1_metadata_fields_never_emitted (generated : String) (dirs : List BrandDir) :
    ∀ brand ∈ (generateManifest generated dirs).brands,
      ∀ tg ∈ brand.assetTypes, ∀ a ∈ tg.assets,
        a.displayName = none ∧ a.tags = none := by
  intro brand hb tg htg a ha
  unfold generateManifest at hb
  rcases List.mem_filterMap.mp hb with ⟨bd, _, hbd⟩
  unfold brandOf at hbd
  split_ifs at hbd with hlen
  · injection hbd with hbd
    subst hbd
    simp only at htg
    rcases List.mem_filterMap.mp htg with ⟨td, _, htd⟩
    unfold typeGroupOf at htd
    split_ifs at htd with hpos
    · injection htd with htd
      subst htd
      simp only at ha
      unfold assetsOfDir at ha
      rcases List.mem_map.mp ha with ⟨kv, _, rfl⟩
      exact ⟨rfl, rfl⟩

/-- Witness for C1 at the concrete manifest of `exBrandDir`. -/
theorem c1_metadata_fields_never_emitted_witness :
    exBrand ∈ exManifest.brands ∧ exTypeGroup ∈ exBrand.assetTypes ∧
      exAsset ∈ exTypeGroup.assets ∧
      exAsset.displayName = none ∧ exAsset.tags = none :=
  ⟨by decide, by decide, by decide,
    c1_metadata_fields_never_emitted "2024-01-01T00:00:00.000Z" [exBrandDir]
      exBrand (by decide) exTypeGroup (by decide) exAsset (by decide)⟩

/-- C4 counterexample: with both type directories non-empty, the emitted
order follows the directory listing (`icons` first), not the canonical
order `logos, icons, images`. -/
theorem c4_counterexample_listing_order_not_canonical :
    ((generateManifest "t0"
        [⟨"acme", [⟨"icons", ["icon.svg"]⟩, ⟨"logos", ["logo.svg"]⟩]⟩]).brands.map
      (fun b => b.assetTypes.map AssetTypeGroup.type)) = [["icons", "logos"]] ∧
    ["icons", "logos"] ≠ ["logos", "icons"] := by
  constructor
  · decide
  · decide

/-- C4 amended: within a brand, the emitted `assetTypes` follow the brand
directory's iteration order with the empty type groups omitted; every
emitted type group has at least one asset. -/
theorem c4_amended_types_in_listing_order (bd : BrandDir) (brand : Brand)
    (h : brandOf bd = some brand) :
    brand.assetTypes.map AssetTypeGroup.type =
      ((bd.typeDirs.filter
          (fun td => !(assetsOfDir bd.name td.name td.files).isEmpty)).map TypeDir.name)
    ∧ ∀ tg ∈ brand.assetTypes, tg.assets ≠ [] := by
  unfold brandOf at h
  split_ifs at h with hlen
  · injection h with h
    subst h
    constructor
    · show (bd.typeDirs.filterMap (typeGroupOf bd.name)).map AssetTypeGroup.type = _
      rw [filterMap_typeGroupOf, List.map_map]
      rfl
    · intro tg htg
      simp only at htg
      rcases List.mem_filterMap.mp htg with ⟨td, _, htd⟩
      unfold typeGroupOf at htd
      split_ifs at htd with hpos
      · injection htd with htd
        subst htd
        simp only
        intro hnil
        rw [hnil] at hpos
        cases hpos

/-- Witness for C4 at the concrete brand directory `exBrandDir`. -/
theorem c4_amended_types_in_listing_order_witness :
    brandOf exBrandDir = some exBrand ∧
      exBrand.assetTypes.map AssetTypeGroup.type =
        ((exBrandDir.typeDirs.filter
            (fun td => !(assetsOfDir exBrandDir.name td.name td.files).isEmpty)).map
          TypeDir.name) :=
  ⟨by decide, (c4_amended_types_in_listing_order exBrandDir exBrand (by decide)).1⟩

/-- C5 amended: resolution returns the exact `(format, size)` file when one
exists; otherwise it returns the first file of the requested format in the
asset's files-list order, regardless of its size; a format with no file at
all resolves to nothing, never a file of a different format. -/
theorem c5_amended_resolution (files : List AssetFile) (format : String)
    (size : Option Nat) :
    (resolveFile files format size = none ↔ ∀ f ∈ files, f.format ≠ format) ∧
    (∀ f, resolveFile files format size = some f → f ∈ files ∧ f.format = format) ∧
    ((∃ g ∈ files, g.format = format ∧ g.size = size) →
      ∀ f, resolveFile files format size = some f → f.size = size) := by
  refine ⟨?_, ?_, ?_⟩
  · unfold resolveFile
    cases h1 : files.find? (fun f => f.format == format && f.size == size) with
    | some f =>
      have hf := List.find?_some h1
      rw [Bool.and_eq_true, beq_iff_eq] at hf
      have hmem := List.mem_of_find?_eq_some h1
      constructor
      · intro h
        cases h
      · intro hall
        exact absurd hf.1 (hall f hmem)
    | none =>
      rw [List.find?_eq_none]
      constructor
      · intro hall f hf
        have := hall f hf
        rwa [beq_iff_eq] at this
      · intro hall f hf
        rw [beq_iff_eq]
        exact hall f hf
  · intro f hf
    unfold resolveFile at hf
    cases h1 : files.find? (fun g => g.format == format && g.size == size) with
    | some g =>
      rw [h1] at hf
      injection hf with hf
      subst hf
      have hg := List.find?_some h1
      rw [Bool.and_eq_true, beq_iff_eq] at hg
      exact ⟨List.mem_of_find?_eq_some h1, hg.1⟩
    | none =>
      rw [h1] at hf
      have hg := List.find?_some hf
      rw [beq_iff_eq] at hg
      exact ⟨List.mem_of_find?_eq_some hf, hg⟩
  · rintro ⟨g, hg, hgf, hgs⟩ f hf
    have hsome : (files.find? (fun h => h.format == format && h.size == size)).isSome := by
      rw [List.find?_isSome]
      exact ⟨g, hg, by rw [Bool.and_eq_true, beq_iff_eq, beq_iff_eq]; exact ⟨hgf, hgs⟩⟩
    unfold resolveFile at hf
    cases h1 : files.find? (fun h => h.format == format && h.size == size) with
    | none =>
      rw [h1] at hsome
      cases hsome
    | some f₀ =>
      rw [h1] at hf
      injection hf with hf
      subst hf
      have hp := List.find?_some h1
      rw [Bool.and_eq_true, beq_iff_eq, beq_iff_eq] at hp
      exact hp.2

/-- Witness for C5: resolving the absent format `avif` on `cexFiles` is
not-found. -/
theorem c5_amended_resolution_witness :
    resolveFile cexFiles "avif" none = none :=
  (c5_amended_resolution cexFiles "avif" none).1.mpr (by decide)

/-- C5 counterexample: on an asset whose files list holds a 96-pixel PNG
before a 64-pixel PNG, a request for a 32-pixel PNG has no exact match and
resolution returns the 96-pixel PNG — the first of that format in list
order — although a smaller PNG exists. -/
theorem c5_counterexample_first_not_smallest :
    resolveFile cexFiles "png" (some 32) =
      some ⟨"logo-96.png", "png", some 96, "v1/brands/acme/logos/logo-96.png"⟩ ∧
    (⟨"logo-64.png", "png", some 64, "v1/brands/acme/logos/logo-64.png"⟩ : AssetFile)
      ∈ cexFiles := by
  constructor
  · decide
  · decide

/-- C6 counterexample: an item with no `sortKey` compares *before* an item
whose present `sortKey` is 10000 (same brand and type), because a missing
key is replaced by the sentinel 9999 rather than comparing larger than
every present value. -/
theorem c6_counterexample_sentinel_9999 :
    cexItemNoKey.sortKey = none ∧ cexItemBigKey.sortKey = some 10000 ∧
      cexItemNoKey.brandName = cexItemBigKey.brandName ∧
      cexItemNoKey.assetType = cexItemBigKey.assetType ∧
      cmpAssets cexItemNoKey cexItemBigKey = Ordering.lt := by
  refine ⟨rfl, rfl, rfl, rfl, ?_⟩
  decide

/-- C6 amended: the catalog ordering is the comparator's total preorder —
antisymmetric up to key equality, transitive, with equality exactly on
equal `(brand name, asset type, effective sort key, display name)` keys —
where a missing `sortKey` is replaced by the sentinel 9999 (so it sorts
after present keys below 9999 but before keys above it); the comparator
sort is the final step after the conjunctive filters. -/
theorem c6_amended_total_preorder_with_sentinel :
    (∀ a b : CatalogItem, cmpAssets b a = (cmpAssets a b).swap) ∧
    (∀ a b c : CatalogItem, cmpAssets a b = Ordering.lt →
      cmpAssets b c = Ordering.lt → cmpAssets a c = Ordering.lt) ∧
    (∀ a b : CatalogItem, cmpAssets a b = Ordering.eq ↔
      (a.brandName = b.brandName ∧ a.assetType = b.assetType ∧
        effSortKey a = effSortKey b ∧ displayNameOf a = displayNameOf b)) ∧
    (∀ a : CatalogItem, a.sortKey = none → effSortKey a = 9999) ∧
    (∀ (items : List CatalogItem) (selBrands selTypes : List String),
      List.Sorted leAssets (filterAndSort items selBrands selTypes) ∧
      List.Perm (filterAndSort items selBrands selTypes)
        (applyFilters items selBrands selTypes)) := by
  refine ⟨cmpAssets_swap, fun _ _ _ h1 h2 => cmpAssets_trans h1 h2,
    fun _ _ => cmpAssets_eq_iff, ?_, ?_⟩
  · intro a ha
    simp [effSortKey, ha]
  · intro items selBrands selTypes
    haveI : IsTotal CatalogItem leAssets := ⟨leAssets_total⟩
    haveI : IsTrans CatalogItem leAssets := ⟨fun _ _ _ => leAssets_trans⟩
    exact ⟨List.sorted_insertionSort _ _, List.perm_insertionSort _ _⟩

/-- Witness for C6 at two concrete catalog records. -/
theorem c6_amended_total_preorder_with_sentinel_witness :
    cmpAssets cexItemBigKey cexItemNoKey = (cmpAssets cexItemNoKey cexItemBigKey).swap ∧
      effSortKey cexItemNoKey = 9999 :=
  ⟨c6_amended_total_preorder_with_sentinel.1 cexItemNoKey cexItemBigKey,
    c6_amended_total_preorder_with_sentinel.2.2.2.1 cexItemNoKey rfl⟩

/-- C7 counterexample: `logo-064.png` and `logo-64.png` both parse to
`(logo, png, 64)`, and the emitted asset keeps *both* records — the
`(format, size)` pair occurs twice in its files list, with no
deduplication. -/
theorem c7_counterexample_duplicate_pair_kept :
    ((assetsOfDir "acme" "logos" ["logo-064.png", "logo-64.png"]).map
        (fun a => a.files.countP (fun f => f.format == "png" && f.size == some 64)))
      = [2] := by
  decide

/-- C7 amended: the files list of an emitted asset is exactly the list of
all parsed records of its id in directory-listing order, duplicates of a
`(format, size)` pair included; conflicting records are all kept (and the
grouping is a total function, so it never crashes). -/
theorem c7_amended_duplicates_all_kept (b t : String) (fs : List String)
    (a : Asset) (ha : a ∈ assetsOfDir b t fs) :
    a.files = filesFor b t a.id fs := by
  unfold assetsOfDir at ha
  rcases List.mem_map.mp ha with ⟨kv, hkv, rfl⟩
  have hl := lookupA_eq_some_of_mem (nodup_keys_groupFiles b t fs) hkv
  rw [lookupA_groupFiles] at hl
  by_cases he : formatsFor kv.1 fs = []
  · rw [if_pos he] at hl
    cases hl
  · rw [if_neg he] at hl
    injection hl with hl
    rw [← hl]
    simp [materializeAsset, extendGroup, skeleton]

/-- Witness for C7 at the asset of `exBrandDir`. -/
theorem c7_amended_duplicates_all_kept_witness :
    exAsset ∈ assetsOfDir "acme" "logos" ["logo.svg", "logo-32.png"] ∧
      exAsset.files = filesFor "acme" "logos" "logo" ["logo.svg", "logo-32.png"] :=
  ⟨by decide,
    c7_amended_duplicates_all_kept "acme" "logos" ["logo.svg", "logo-32.png"]
      exAsset (by decide)⟩

/-- C8 counterexample: a single conversion failure rejects the batch and
propagates to `main().catch`, aborting the whole run with a non-zero exit
and no manifest — the run does not continue. -/
theorem c8_counterexample_single_failure_aborts :
    mainRun [Except.ok (), Except.error "resize failed"] "t0" [exBrandDir]
      = Except.error "resize failed" := rfl

/-- C8 amended: when any individual conversion task fails, the whole run
fails with that class of error and produces no manifest (the process exits
non-zero); a manifest is produced exactly when every task succeeded. -/
theorem c8_amended_failure_aborts_run (results : List TaskResult)
    (generated : String) (dirs : List BrandDir) :
    ((∃ e, Except.error e ∈ results) →
      ∃ e, mainRun results generated dirs = Except.error e) ∧
    ((∀ r ∈ results, r = Except.ok ()) →
      mainRun results generated dirs = Except.ok (generateManifest generated dirs)) ∧
    (∀ m, mainRun results generated dirs = Except.ok m →
      (∀ r ∈ results, r = Except.ok ()) ∧ m = generateManifest generated dirs) := by
  refine ⟨?_, ?_, ?_⟩
  · rintro ⟨e, he⟩
    rcases runTasks_error_of_mem he with ⟨e', he'⟩
    exact ⟨e', by simp [mainRun, he']⟩
  · intro hall
    simp [mainRun, (runTasks_eq_ok_iff results).mpr hall]
  · intro m hm
    unfold mainRun at hm
    cases hr : runTasks results with
    | error e =>
      rw [hr] at hm
      cases hm
    | ok u =>
      cases u
      rw [hr] at hm
      injection hm with hm
      exact ⟨(runTasks_eq_ok_iff results).mp hr, hm.symm⟩

/-- Witness for C8: with every task fulfilled the run produces the
manifest. -/
theorem c8_amended_failure_aborts_run_witness :
    mainRun [Except.ok ()] "t0" [exBrandDir]
      = Except.ok (generateManifest "t0" [exBrandDir]) :=
  (c8_amended_failure_aborts_run [Except.ok ()] "t0" [exBrandDir]).2.1
    (by
      intro r hr
      rw [List.mem_singleton] at hr
      exact hr)

/-- C9: the generator also recognizes the extension `.jpeg` and emits it
verbatim as the format `jpeg` — a sixth format value outside the declared
`AssetFormat` union `svg | png | webp | avif | jpg` of
`lib/types/manifest.ts`. -/
theorem c9_jpeg_emitted_as_sixth_format :
    ((assetsOfDir "acme" "images" ["photo.jpeg"]).map
        (fun a => a.files.map AssetFile.format)) = [["jpeg"]] ∧
      "jpeg" ∉ ["svg", "png", "webp", "avif", "jpg"] := by
  refine ⟨?_, ?_⟩
  · decide
  · decide

/-- C10: every emitted brand has a non-empty `assetTypes` list whose groups
are all non-empty, and a discovered brand directory is omitted from the
manifest precisely when none of its type directories holds a file with a
recognized extension. -/
theorem c10_brand_omitted_iff_no_recognized_file :
    (∀ (generated : String) (dirs : List BrandDir),
      ∀ brand ∈ (generateManifest generated dirs).brands,
        brand.assetTypes ≠ [] ∧ ∀ tg ∈ brand.assetTypes, tg.assets ≠ []) ∧
    (∀ bd : BrandDir,
      brandOf bd = none ↔ ∀ td ∈ bd.typeDirs, ∀ f ∈ td.files, parseFile f = none) := by
  constructor
  · intro generated dirs brand hb
    unfold generateManifest at hb
    rcases List.mem_filterMap.mp hb with ⟨bd, _, hbd⟩
    unfold brandOf at hbd
    split_ifs at hbd with hlen
    injection hbd with hbd
    subst hbd
    constructor
    · simp only
      intro hnil
      rw [hnil] at hlen
      cases hlen
    · intro tg htg
      simp only at htg
      rcases List.mem_filterMap.mp htg with ⟨td, _, htd⟩
      unfold typeGroupOf at htd
      split_ifs at htd with hpos
      injection htd with htd
      subst htd
      simp only
      intro hnil
      rw [hnil] at hpos
      cases hpos
  · intro bd
    unfold brandOf
    constructor
    · intro h td htd f hf
      split_ifs at h with hlen
      have hnil : bd.typeDirs.filterMap (typeGroupOf bd.name) = [] :=
        List.length_eq_zero.mp (Nat.eq_zero_of_not_pos hlen)
      have htdn := List.filterMap_eq_nil_iff.mp hnil td htd
      unfold typeGroupOf at htdn
      split_ifs at htdn with hpos
      have hempty : assetsOfDir bd.name td.name td.files = [] :=
        List.length_eq_zero.mp (Nat.eq_zero_of_not_pos hpos)
      exact (assetsOfDir_eq_nil_iff bd.name td.name td.files).mp hempty f hf
    · intro hall
      have hnil : bd.typeDirs.filterMap (typeGroupOf bd.name) = [] := by
        rw [List.filterMap_eq_nil_iff]
        intro td htd
        unfold typeGroupOf
        rw [if_neg ?_]
        rw [(assetsOfDir_eq_nil_iff bd.name td.name td.files).mpr
          (fun f hf => hall td htd f hf)]
        simp
      rw [hnil]
      simp

/-- Witness for C10: the populated brand is emitted with non-empty groups;
a brand directory holding only a `.txt` file is omitted. -/
theorem c10_brand_omitted_iff_no_recognized_file_witness :
    exBrand.assetTypes ≠ [] ∧
      brandOf ⟨"empty-brand", [⟨"logos", ["readme.txt"]⟩]⟩ = none :=
  ⟨(c10_brand_omitted_iff_no_recognized_file.1 "2024-01-01T00:00:00.000Z"
      [exBrandDir] exBrand (by decide)).1,
    (c10_brand_omitted_iff_no_recognized_file.2 _).mpr (by decide)⟩

end StaticAssets
